import Mathlib

/-!
Verification development for the pharma-web inspection portal.

The repository is a Next.js/Firebase web application for drug-shop
inspections: staff record inspections, impound and release stock, and
trigger SMS notifications.  This file gives a shallow embedding of the
application's business logic — the Uganda phone normalizer, the SMS proxy
route, the impoundment status editor, the release workflows (three
near-duplicate variants), the 100-day auto-reminder pass, and the
paginated list loader — and proves (or refutes) the specification's
claims about them.

Modelling conventions:
* JavaScript strings are Lean `String`s; character-level work happens on
  `List Char` (`String.data`).
* `replace(/\s+/g, '')` is modelled by filtering out the ASCII whitespace
  characters; `.trim()` by `jsTrim`.
* JS numbers holding box counts are modelled as `Int` (all the arithmetic
  on them in the sources is integer arithmetic).
* Fallible effects (SMS sends, upstream fetches) are modelled by explicit
  outcome parameters; event traces record the order of store writes and
  notification sends.
-/

namespace PharmaWeb

/-! ## JavaScript string primitives -/

/-- Model of the character class `\s` (ASCII part) used by
`replace(/\s+/g, '')` in the sources. -/
def isWs (c : Char) : Bool :=
  c = ' ' || c = '\t' || c = '\n' || c = '\r' || c = '\x0b' || c = '\x0c'

/-- Model of `p.replace(/\s+/g, '')`: remove every whitespace character. -/
def stripWs (l : List Char) : List Char :=
  l.filter (fun c => !isWs c)

/-- Model of the regex character class `\d`. -/
def isDigitCh (c : Char) : Bool :=
  '0' ≤ c && c ≤ '9'

/-- Every character of the list is a decimal digit. -/
def allDigits (l : List Char) : Bool :=
  l.all isDigitCh

/-- Value of a list of decimal digits, most significant first. -/
def digitsVal (l : List Char) : Nat :=
  l.foldl (fun acc c => 10 * acc + (c.toNat - '0'.toNat)) 0

/-- Model of JavaScript `parseInt(s, 10)`: skip leading whitespace, read an
optional sign and then the longest prefix of decimal digits; `none` models
`NaN` (no digit found). -/
def jsParseInt (s : String) : Option Int :=
  let l := s.data.dropWhile isWs
  match l with
  | '-' :: t =>
      let ds := t.takeWhile isDigitCh
      if ds.isEmpty then none else some (-(digitsVal ds : Int))
  | '+' :: t =>
      let ds := t.takeWhile isDigitCh
      if ds.isEmpty then none else some (digitsVal ds : Int)
  | _ =>
      let ds := l.takeWhile isDigitCh
      if ds.isEmpty then none else some (digitsVal ds : Int)

/-- Model of the test `/^\d+$/.test(s)`: the whole string is one or more
decimal digits. -/
def digitString (s : String) : Bool :=
  !s.data.isEmpty && allDigits s.data

/-- Model of JavaScript `s.trim()`: remove leading and trailing
whitespace.  (Defined on the character list so that it evaluates by
kernel reduction.) -/
def jsTrim (s : String) : String :=
  ⟨((s.data.dropWhile isWs).reverse.dropWhile isWs).reverse⟩

/-! ## Phone normalizer (`normalizeUgPhone`)

Source: `src/app/(protected)/inspections/new/page.tsx` lines 84–102;
identical copies in `src/unnamed/part_005` lines 167–174 and
`src/unnamed/part_006` lines 617–623:

    const ugReCanonical = /^\+2567\d{8}$/;
    function normalizeUgPhone(p: string) {
      const s = p.replace(/\s+/g, '');
      if (ugReCanonical.test(s)) return s;
      if (/^2567\d{8}$/.test(s)) return `+${s}`;
      if (/^07\d{8}$/.test(s)) return `+256${s.slice(1)}`;
      return s;
    }
-/

/-- Test of the canonical pattern `/^\+2567\d{8}$/`. -/
def isCanonicalCh (l : List Char) : Bool :=
  l.take 5 == ['+', '2', '5', '6', '7'] && (l.drop 5).length == 8 && allDigits (l.drop 5)

/-- Test of the bare-country-code pattern `/^2567\d{8}$/`. -/
def isBareCh (l : List Char) : Bool :=
  l.take 4 == ['2', '5', '6', '7'] && (l.drop 4).length == 8 && allDigits (l.drop 4)

/-- Test of the local pattern `/^07\d{8}$/`. -/
def isLocalCh (l : List Char) : Bool :=
  l.take 2 == ['0', '7'] && (l.drop 2).length == 8 && allDigits (l.drop 2)

/-- Character-level body of `normalizeUgPhone`.  The source computes
`s = p.replace(/\s+/g, '')` once; here `stripWs l` is written at each use,
which is the same value. -/
def normCh (l : List Char) : List Char :=
  if isCanonicalCh (stripWs l) then stripWs l
  else if isBareCh (stripWs l) then '+' :: stripWs l
  else if isLocalCh (stripWs l) then '+' :: '2' :: '5' :: '6' :: (stripWs l).drop 1
  else stripWs l

/-- The per-token phone normalizer `normalizeUgPhone`. -/
def normalizeUgPhone (p : String) : String :=
  ⟨normCh p.data⟩

/-! ## SMS proxy route (`POST /api/sms`)

Source: `src/app/api/sms/route.ts` lines 8–59.  The route checks the
`YOOLA_SMS_API_KEY` environment variable (JS `!apiKey` is true for the
missing variable and for the empty string), parses the JSON body (a parse
failure is an exception caught by the outer handler), validates the
trimmed `phone` and `message` fields, and only then fetches the upstream
provider, passing its status through.  An exception thrown anywhere is
answered with HTTP 500 and the exception's message. -/

/-- The request body as the route reads it (`Partial<SendSmsPayload>`). -/
structure SmsBody where
  phone : Option String
  message : Option String
deriving DecidableEq, Repr

/-- Outcome of the upstream `fetch` to the SMS provider: a response with
its `ok` flag and HTTP status, or a thrown network error. -/
inductive UpstreamOutcome where
  | resp (ok : Bool) (status : Nat)
  | thrown (msg : String)
deriving DecidableEq, Repr

/-- Response of the route: an error JSON `{ ok: false, error }` with an
HTTP status, or the upstream passthrough `{ ok, status, data }`. -/
inductive SmsRouteResp where
  | err (httpStatus : Nat) (error : String)
  | relay (httpStatus : Nat) (ok : Bool)
deriving DecidableEq, Repr

/-- Model of the route handler `POST`.  `apiKey` is the environment
variable (`none` when unset), `body` the result of `req.json()` (`.error`
models a thrown parse error), `upstream` the upstream fetch outcome.
Returns the response and whether the upstream provider was contacted. -/
def smsPost (apiKey : Option String) (body : Except String SmsBody)
    (upstream : UpstreamOutcome) : SmsRouteResp × Bool :=
  if apiKey.getD "" = "" then
    (.err 500 "Server is missing YOOLA_SMS_API_KEY.", false)
  else
    match body with
    | .error e => (.err 500 e, false)
    | .ok b =>
      let phone := jsTrim (b.phone.getD "")
      let message := jsTrim (b.message.getD "")
      if phone = "" then (.err 400 "Phone is required.", false)
      else if message = "" then (.err 400 "Message is required.", false)
      else
        match upstream with
        | .thrown e => (.err 500 e, true)
        | .resp ok status => (.relay status ok, true)

/-- Modelled from the claim's words, for comparison with `smsPost`: 500
when the provider credential is not configured, otherwise 400 "Phone is
required." when the phone field is missing or blank after trimming,
otherwise 400 "Message is required." when the message field is missing or
blank, 500 with the exception's message on an unexpected exception, the
upstream passthrough otherwise; the provider is contacted exactly when
none of the error cases short-circuits before the fetch. -/
def smsPostClaim (apiKey : Option String) (body : Except String SmsBody)
    (upstream : UpstreamOutcome) : SmsRouteResp × Bool :=
  let credentialMissing := apiKey.getD "" = ""
  if credentialMissing then (.err 500 "Server is missing YOOLA_SMS_API_KEY.", false)
  else
    match body with
    | .error e => (.err 500 e, false)
    | .ok b =>
      let phoneBlank := jsTrim (b.phone.getD "") = ""
      let messageBlank := jsTrim (b.message.getD "") = ""
      if phoneBlank then (.err 400 "Phone is required.", false)
      else if messageBlank then (.err 400 "Message is required.", false)
      else
        match upstream with
        | .thrown e => (.err 500 e, true)
        | .resp ok status => (.relay status ok, true)

/-! ## Impoundment status editor (`saveBoxStatus`)

Source: `src/unnamed/part_006` lines 738–782 (inspection detail page).
The editor refuses any change once the current `boxStatus` is `Released`,
refuses to select `Released` directly (the release modal must be used),
and otherwise patches `impoundment/boxStatus` and, when the new status is
`In Store` and the facility has contact phones, sends a best-effort
notification SMS. -/

/-- The `boxStatus` enum `'Not yet in store' | 'In Store' | 'Released'`. -/
inductive BoxStatus where
  | notYetInStore
  | inStore
  | released
deriving DecidableEq, Repr

/-- Outcome of one `saveBoxStatus` invocation: the `boxStatus` value
written to the store (`none` when the save was rejected and nothing was
written) and whether an owner notification was attempted. -/
structure SaveStatusOutcome where
  write : Option BoxStatus
  smsAttempted : Bool
deriving DecidableEq, Repr

/-- Model of `saveBoxStatus`: `current` is the record's current status,
`draft` the status selected in the editor, `ownerPhonesCsv` the
collected owner phone list (empty string when no phone is available). -/
def saveBoxStatus (current draft : BoxStatus) (ownerPhonesCsv : String) : SaveStatusOutcome :=
  if current = .released then
    { write := none, smsAttempted := false }
  else if draft = .released then
    { write := none, smsAttempted := false }
  else
    { write := some draft
      smsAttempted := draft = .inStore && ownerPhonesCsv ≠ "" }

/-! ## Release arithmetic and the inspection patch

Source: `src/app/(protected)/bounded-drugs/page.tsx` lines 261–274 and
the near-identical `src/unnamed/part_004` lines 240–254:

    const remaining = Math.max(0, available - count);
    const isStr = typeof target.boxesImpounded === "string";
    const nextStatus = remaining === 0 ? "Completed" : "Pending Review";
    await update(ref(db, `inspections/...`), {
      boxesImpounded: isStr ? String(remaining) : remaining, status: nextStatus, ... });
-/

/-- The stored `boxesImpounded` field: the sources observe it with
`typeof`, so the representation (string vs number) matters. -/
inductive BoxField where
  | bstr (s : String)
  | bnum (n : Int)
  | bmissing
deriving DecidableEq, Repr

/-- Model of the helper `num` / `parseNumber`: a number is used as-is, a
string is converted with `Number(...)` (modelled for the integer numerals
this field holds; a non-numeric string gives 0), anything else gives 0. -/
def jsNumBox : BoxField → Int
  | .bnum n => n
  | .bstr s => (jsParseInt (jsTrim s)).getD 0
  | .bmissing => 0

/-- Release arithmetic (lines 261–263): remaining count and next free-text
status from the available count and the released count. -/
def releaseCore (available count : Int) : Int × String :=
  let remaining := max 0 (available - count)
  (remaining, if remaining = 0 then "Completed" else "Pending Review")

/-- The `boxesImpounded` and `status` fields the release writes back
(lines 261–267): the remaining count re-encoded in the stored
representation, and the next free-text status. -/
def releasePatch (stored : BoxField) (count : Int) : BoxField × String :=
  let available := jsNumBox stored
  let remaining := (releaseCore available count).1
  let isStr := match stored with
    | .bstr _ => true
    | _ => false
  ((if isStr then .bstr (toString remaining) else .bnum remaining),
    (releaseCore available count).2)

/-! ## Release validation

Two distinct validators guard a release submission:
* `src/app/(protected)/bounded-drugs/page.tsx` lines 225–237
  (`handleSubmitRelease`, guard section; `telOk` at line 84), essentially
  identical in `src/unnamed/part_004` lines 205–217;
* `src/unnamed/part_006` lines 785–794 (`validateRelease` on the
  inspection detail page). -/

/-- Model of `telOk` / `validateTel`:
`/^(\+?\d{7,15})$/.test((t || "").replace(/\s+/g, ""))`. -/
def telOk (t : String) : Bool :=
  let l := stripWs t.data
  let core := match l with
    | '+' :: rest => rest
    | _ => l
  allDigits core && 7 ≤ core.length && core.length ≤ 15

/-- Form state of the bounded-drugs release modal; `canConfirm` is the
memoized acknowledgement/typed-confirmation flag (lines 200–206). -/
structure ReleaseFormBd where
  relDate : String
  clientName : String
  telephone : String
  releasedBy : String
  boxesReleased : String
  canConfirm : Bool
deriving DecidableEq, Repr

/-- Model of the guard section of the bounded-drugs `handleSubmitRelease`
(lines 227–237): the first error raised, `none` when the submission
proceeds to the store writes.  `count` is `parseInt(boxesReleased, 10)`. -/
def bdValidate (available : Int) (f : ReleaseFormBd) : Option String :=
  if f.relDate = "" then some "Release date is required."
  else if jsTrim f.clientName = "" then some "Client name is required."
  else if jsTrim f.telephone = "" then some "Telephone number is required."
  else if !telOk f.telephone then some "Enter a valid phone number (e.g. +2567XXXXXXX)."
  else if jsTrim f.releasedBy = "" then some "Released by is required."
  else
    match jsParseInt f.boxesReleased with
    | none => some "Enter a valid number of boxes to release."
    | some c =>
      if c ≤ 0 then some "Enter a valid number of boxes to release."
      else if available < c then
        some ("You are releasing " ++ toString c ++ ", but only "
          ++ toString available ++ " are impounded.")
      else if !f.canConfirm then
        some "Complete acknowledgements and type RELEASE or the Serial."
      else none

/-- Form state of the inspection-detail release modal (`ReleaseForm` in
`src/unnamed/part_006`). -/
structure ReleaseFormP6 where
  releaseDate : String
  clientName : String
  telephone : String
  releasedBy : String
  comment : String
  boxesReleased : String
deriving DecidableEq, Repr

/-- Model of `validateRelease` (`src/unnamed/part_006` lines 785–794): the
accumulated error list, empty when the form passes.  Note the only check
on `boxesReleased` is `/^\d+$/` — no positivity and no comparison against
the impounded count. -/
def validateRelease (f : ReleaseFormP6) (consent : Bool) : List String :=
  (if f.releaseDate = "" then ["Release Date is required"] else [])
    ++ (if jsTrim f.clientName = "" then ["Client Name is required"] else [])
    ++ (if jsTrim f.telephone = "" then ["Telephone is required"] else [])
    ++ (if jsTrim f.releasedBy = "" then ["Released By is required"] else [])
    ++ (if jsTrim f.boxesReleased = "" || !digitString f.boxesReleased then
          ["Boxes Released must be a number"] else [])
    ++ (if !consent then ["Consent is required"] else [])

/-! ## Release side-effect ordering

Three near-duplicate release workflows exist:
* `handleSubmitRelease` in `src/app/(protected)/bounded-drugs/page.tsx`
  lines 225–310: push the release record, patch the inspection, then send
  the SMS inside its own try/catch ("Non-blocking: we still consider the
  release successful");
* `handleSubmitRelease` in `src/unnamed/part_004` lines 205–285: same
  order, SMS failure only changes the alert text to "(SMS failed)";
* `handleReleaseSubmit` in `src/unnamed/part_006` lines 796–831: the
  comment says "1) SMS must succeed first", the store update runs only
  after `sendSms` resolves, and a rejected send aborts the whole release
  ("Release failed: ...").

Store writes themselves are assumed to succeed in these traces; the
varied dimension is whether the SMS send fails. -/

/-- Side effects a release workflow can perform, in trace order. -/
inductive ReleaseEv where
  | pushReleaseRecord
  | patchInspection
  | smsAttempt
  | patchSubmission
deriving DecidableEq, Repr

/-- One run of a release workflow: ordered side effects, whether the
workflow reported success, and whether it surfaced a non-blocking SMS
warning. -/
structure ReleaseRun where
  events : List ReleaseEv
  success : Bool
  smsWarning : Bool
deriving DecidableEq, Repr

/-- Post-validation effects of the bounded-drugs `handleSubmitRelease`
(lines 239–310): store writes first, then the fire-and-forget SMS; an SMS
failure is caught, logged and surfaced as a warning only. -/
def handleSubmitReleaseRun (smsFails : Bool) : ReleaseRun :=
  { events := [.pushReleaseRecord, .patchInspection, .smsAttempt]
    success := true
    smsWarning := smsFails }

/-- Post-validation effects of `handleSubmitRelease` in
`src/unnamed/part_004` lines 219–285: identical order and outcome, the
failure flag only switching the alert to "(SMS failed)". -/
def handleSubmitReleaseP4Run (smsFails : Bool) : ReleaseRun :=
  { events := [.pushReleaseRecord, .patchInspection, .smsAttempt]
    success := true
    smsWarning := smsFails }

/-- Post-validation effects of `handleReleaseSubmit` in
`src/unnamed/part_006` lines 805–831: the SMS is sent first and must
succeed; only then is the submission patched to `Released`; a failed send
aborts the release with no store write. -/
def handleReleaseSubmitRun (smsFails : Bool) : ReleaseRun :=
  if smsFails then
    { events := [.smsAttempt], success := false, smsWarning := false }
  else
    { events := [.smsAttempt, .patchSubmission], success := true, smsWarning := false }

/-! ## Auto-reminder pass (100 days in store)

Source: `src/unnamed/part_005` lines 374–408 (the `useEffect` on the
inspections page), with the helpers `splitCsv`, `uniqueCsv`,
`collectOwnerPhones` (lines 175–188) and `daysBetween` (lines 154–161).
For each item of the current list, the pass skips records without an
impoundment, records not `In Store`, records whose
`reminder100SentAt` is already set, records already reminded this session,
records whose days in store cannot be computed or are `<= 100`, and
records with no owner phone; otherwise it sends the reminder SMS and, when
the send succeeded, patches `reminder100SentAt` and adds the id to the
session set.  `daysSince` abstracts `daysBetween(start, nowIso())` and
`smsOk` whether the send for a given record id succeeds. -/

/-- Model of `s.split(',')` on the character list (JS `split` keeps empty
segments; `splitCsv` later trims and drops them). -/
def splitOnComma : List Char → List (List Char)
  | [] => [[]]
  | ',' :: t => [] :: splitOnComma t
  | c :: t =>
    match splitOnComma t with
    | [] => [[c]]
    | h :: r => (c :: h) :: r

/-- Model of `splitCsv`: split on commas, trim each token, drop empties. -/
def splitCsv (s : Option String) : List String :=
  ((splitOnComma (s.getD "").data).map (fun l => jsTrim ⟨l⟩)).filter (fun x => x != "")

/-- Model of `uniqueCsv`: deduplicate (keeping first occurrences, as
`new Set` iteration does) and join with commas. -/
def uniqueCsv (arr : List String) : String :=
  String.intercalate "," arr.eraseDups

/-- Model of `collectOwnerPhones`: split the stored phone list, normalize
each token, drop empties, deduplicate, join. -/
def collectOwnerPhones (phones : Option String) : String :=
  uniqueCsv (((splitCsv phones).map normalizeUgPhone).filter (fun x => x != ""))

/-- The `impoundment` block of an inspection as the reminder pass reads
it. -/
structure ImpBlock where
  boxStatus : BoxStatus
  reminder100SentAt : Option String
  impoundmentDate : Option String
deriving DecidableEq, Repr

/-- An inspection record as the reminder pass reads it (`meta.date` and
`meta.drugshopContactPhones` are the two meta fields it uses). -/
structure InspRec where
  id : String
  imp : Option ImpBlock
  metaDate : Option String
  drugshopContactPhones : Option String
deriving DecidableEq, Repr

/-- Model of the JS fallback `a || b` on possibly-empty strings, with a
falsy overall result collapsed to `none` (as `daysBetween` treats a falsy
start as null). -/
def jsOrStr (a b : Option String) : Option String :=
  let pick := match a with
    | some s => if s = "" then b else some s
    | none => b
  match pick with
  | some s => if s = "" then none else some s
  | none => none

/-- Observable state accumulated by one reminder pass: ids for which an
SMS send was attempted, ids whose `reminder100SentAt` was patched, and the
in-session `remindedIds` set. -/
structure RemindSt where
  smsLog : List String
  patches : List String
  session : List String
deriving DecidableEq, Repr

/-- Body of one loop iteration of the auto-remind `useEffect` once the
impoundment block is known to be present. -/
def remindStepImp (daysSince : String → Option Nat) (smsOk : String → Bool)
    (st : RemindSt) (r : InspRec) (imp : ImpBlock) : RemindSt :=
  if imp.boxStatus ≠ .inStore then st
  else if imp.reminder100SentAt.isSome then st
  else if r.id ∈ st.session then st
  else
    match (jsOrStr imp.impoundmentDate r.metaDate).bind daysSince with
    | none => st
    | some d =>
      if d ≤ 100 then st
      else if collectOwnerPhones r.drugshopContactPhones = "" then st
      else if smsOk r.id then
        { smsLog := st.smsLog ++ [r.id]
          patches := st.patches ++ [r.id]
          session := st.session ++ [r.id] }
      else
        { st with smsLog := st.smsLog ++ [r.id] }

/-- Model of one loop iteration of the auto-remind `useEffect`. -/
def remindStep (daysSince : String → Option Nat) (smsOk : String → Bool)
    (st : RemindSt) (r : InspRec) : RemindSt :=
  match r.imp with
  | none => st
  | some imp => remindStepImp daysSince smsOk st r imp

/-- Model of one full evaluation pass of the auto-remind `useEffect` over
the current item list. -/
def autoRemindPass (daysSince : String → Option Nat) (smsOk : String → Bool)
    (rs : List InspRec) (st : RemindSt) : RemindSt :=
  rs.foldl (remindStep daysSince smsOk) st

/-- Update of an optional impoundment block when its reminder fires. -/
def setReminder (now : String) : Option ImpBlock → Option ImpBlock
  | some imp => some { imp with reminder100SentAt := some now }
  | none => none

/-- The store after the patches of a pass: every patched record's
`reminder100SentAt` is set (this is what the live subscription delivers to
a later pass). -/
def applyReminderPatch (now : String) (ids : List String) (rs : List InspRec) : List InspRec :=
  rs.map fun r =>
    if r.id ∈ ids then { r with imp := setReminder now r.imp } else r

/-- A record the reminder pass can never act on: no impoundment block, or
the reminder timestamp already set, or not `In Store`. -/
def remindSkipped (r : InspRec) : Prop :=
  ∀ imp, r.imp = some imp → (imp.reminder100SentAt.isSome = true ∨ imp.boxStatus ≠ .inStore)

/-! ## Paginated inspections loader (`loadMore`)

Source: `src/app/(protected)/inspections/page.tsx` lines 96–109
(`createdAtMs`) and 147–251 (the initial `limitToLast(PAGE_SIZE)`
subscription, and `loadMore` with its `endAt` cursor and id-deduplicating
merge), duplicated in `src/unnamed/part_005` lines 113–125 and 243–338.
`PAGE_SIZE` is 24.

The store (Firebase RTDB `orderByChild('meta/createdAt')`) delivers the
match set in ascending key order.  The client then re-sorts each batch
with `sort((a, b) => createdAtMs(b.meta) - createdAtMs(a.meta))` — a
stable (ES2019) descending sort by the parsed-millisecond value, not by
the store's key order — and takes `batch[batch.length - 1]` as the next
cursor.  A stable descending sort moves every element attaining the
minimal `createdAtMs` to the tail in its original relative order, so that
picked element is the last element, in store order, of those attaining
the batch's minimal `createdAtMs`; `lastMinByMs` below selects exactly
that element from the ascending batch.  `Date.parse` is outside this
embedding and enters as the oracle `parseDateMs` (`none` models `NaN`,
which `createdAtMs` turns into 0; the `part_005` copy additionally falls
back to `meta.date` for unparsable strings, likewise abstracted by the
oracle).  The client-side descending re-sort of `items` for display is a
permutation and is omitted (no claim concerns display order).  The
`endAt` bound is `cursor - 1` for a numeric cursor (exclusive) but the
cursor itself for a string cursor (inclusive) — `loadMore` lines
213–217. -/

/-- An RTDB `meta/createdAt` value: the code branches on `typeof`, so
number and string keys are distinguished.  String content is kept as a
character list so every comparison evaluates by reduction. -/
inductive RKey where
  | num (n : Int)
  | str (s : List Char)
deriving DecidableEq, Repr

/-- Lexicographic order on the character lists of string keys (JS code
units compare by their numeric value). -/
def lexLe : List Char → List Char → Bool
  | [], _ => true
  | _ :: _, [] => false
  | a :: as, b :: bs =>
    if a.toNat < b.toNat then true
    else if b.toNat < a.toNat then false
    else lexLe as bs

/-- The store's order on `createdAt` keys: numbers sort before strings,
numbers by value, strings lexicographically. -/
def keyLe : RKey → RKey → Bool
  | .num a, .num b => decide (a ≤ b)
  | .num _, .str _ => true
  | .str _, .num _ => false
  | .str a, .str b => lexLe a b

/-- A record as the pagination logic sees it: its id (the store key) and
its `meta/createdAt` ordering value. -/
structure PageRec where
  id : String
  createdAt : RKey
deriving DecidableEq, Repr

/-- Test for a numeric `createdAt` value (the `typeof v === 'number'`
branch). -/
def isNumKey : RKey → Bool
  | .num _ => true
  | .str _ => false

/-- Model of `createdAtMs` (lines 96–109) on a record's `createdAt`
value: a number is used as-is; a string is parsed with `Date.parse`
(the oracle `parseDateMs`), an unparsable string (`NaN`) giving 0. -/
def createdAtMs (parseDateMs : List Char → Option Int) : RKey → Int
  | .num n => n
  | .str s => (parseDateMs s).getD 0

/-- The `createdAtMs` value of a record (its `meta.createdAt` run through
`createdAtMs`). -/
def recMs (parseDateMs : List Char → Option Int) (r : PageRec) : Int :=
  createdAtMs parseDateMs r.createdAt

/-- Left-to-right scan selecting the last element attaining the minimal
`ms` value: a later element with an `ms` value less than or equal to the
current choice replaces it. -/
def lastMinFrom (ms : PageRec → Int) : PageRec → List PageRec → PageRec
  | best, [] => best
  | best, r :: t => lastMinFrom ms (if ms r ≤ ms best then r else best) t

/-- The element `batch[batch.length - 1]` after the client's stable
descending sort by `createdAtMs`: the last element, in the ascending
store order of `batch`, attaining the minimal `createdAtMs` (a stable
descending sort moves exactly the minimal-`ms` elements to the tail in
their original relative order, so its last element is the last minimal
one), selected here by the scan `lastMinFrom`. -/
def lastMinByMs (ms : PageRec → Int) : List PageRec → Option PageRec
  | [] => none
  | r :: t => some (lastMinFrom ms r t)

/-- The page size constant of both list pages. -/
def PAGE_SIZE : Nat := 24

/-- Model of `limitToLast n` over an ascending match set: its last `n`
elements. -/
def takeLast (n : Nat) (l : List PageRec) : List PageRec :=
  l.drop (l.length - n)

/-- The `endAt` bound `loadMore` sends: a numeric cursor is decremented
("go strictly older"), a string cursor is sent unchanged (inclusive). -/
def queryBound : RKey → RKey
  | .num n => .num (n - 1)
  | .str s => .str s

/-- An `endAt(bound), limitToLast(PAGE_SIZE)` query over the dataset `D`
(held in ascending key order). -/
def fetchEndAt (D : List PageRec) (bound : RKey) : List PageRec :=
  takeLast PAGE_SIZE (D.filter (fun r => keyLe r.createdAt bound))

/-- The initial `limitToLast(PAGE_SIZE)` snapshot. -/
def initFetch (D : List PageRec) : List PageRec :=
  takeLast PAGE_SIZE D

/-- Pagination state: the merged item list, `lastSeenOrderVal` and
`reachedEnd`. -/
structure PgState where
  items : List PageRec
  cursor : Option RKey
  reachedEnd : Bool
deriving DecidableEq, Repr

/-- The `setItems` merge of `loadMore`: previous entries first, then batch
entries whose id is not already present (`seen` built once from `prev`). -/
def mergeDedup (prev batch : List PageRec) : List PageRec :=
  prev ++ batch.filter (fun it => !((prev.map PageRec.id).contains it.id))

/-- State after the initial subscription callback (lines 147–165): the
snapshot becomes the item list, the cursor is the `createdAt` of the last
element of the stable descending `createdAtMs` sort of the snapshot
(`next[next.length - 1]`), and the end is reached when fewer than
`PAGE_SIZE` rows came back. -/
def initState (parseDateMs : List Char → Option Int) (D : List PageRec) : PgState :=
  let batch := initFetch D
  { items := batch
    cursor := (lastMinByMs (recMs parseDateMs) batch).map PageRec.createdAt
    reachedEnd := decide (batch.length < PAGE_SIZE) }

/-- Whether a `loadMore` call issues a query (it returns early on
`reachedEnd` or a null cursor; `loadingMore` is irrelevant in this
single-threaded sequential model). -/
def didFetch (s : PgState) : Bool :=
  !s.reachedEnd && s.cursor.isSome

/-- Model of one `loadMore` call (lines 206–251).  The next cursor is the
`createdAt` of `batch[batch.length - 1]` after the stable descending
`createdAtMs` sort, i.e. of the batch's last minimal-`createdAtMs`
element.  The source binds the fetched batch once; it is written out at
each use here, denoting the same value. -/
def loadMoreStep (parseDateMs : List Char → Option Int) (D : List PageRec)
    (s : PgState) : PgState :=
  if s.reachedEnd then s
  else
    match s.cursor with
    | none => s
    | some c =>
      if (fetchEndAt D (queryBound c)).isEmpty then { s with reachedEnd := true }
      else
        { items := mergeDedup s.items (fetchEndAt D (queryBound c))
          cursor := (lastMinByMs (recMs parseDateMs)
            (fetchEndAt D (queryBound c))).map PageRec.createdAt
          reachedEnd := decide ((fetchEndAt D (queryBound c)).length < PAGE_SIZE) }

def pagingLoopData : List PageRec :=
  [⟨"a", .str ['t']⟩, ⟨"b", .str ['t']⟩, ⟨"c", .str ['t']⟩, ⟨"d", .str ['t']⟩,
   ⟨"e", .str ['t']⟩, ⟨"f", .str ['t']⟩, ⟨"g", .str ['t']⟩, ⟨"h", .str ['t']⟩,
   ⟨"i", .str ['t']⟩, ⟨"j", .str ['t']⟩, ⟨"k", .str ['t']⟩, ⟨"l", .str ['t']⟩,
   ⟨"m", .str ['t']⟩, ⟨"n", .str ['t']⟩, ⟨"o", .str ['t']⟩, ⟨"p", .str ['t']⟩,
   ⟨"q", .str ['t']⟩, ⟨"r", .str ['t']⟩, ⟨"s", .str ['t']⟩, ⟨"u", .str ['t']⟩,
   ⟨"v", .str ['t']⟩, ⟨"w", .str ['t']⟩, ⟨"x", .str ['t']⟩, ⟨"y", .str ['t']⟩,
   ⟨"z", .str ['t']⟩]

/-! ## Lemmas and claim theorems -/

/-! ### Normalizer lemmas -/

theorem stripWs_idem (l : List Char) : stripWs (stripWs l) = stripWs l :=
  List.filter_eq_self.mpr fun _ ha => (List.mem_filter.mp ha).2

theorem stripWs_cons_not_ws {c : Char} (h : isWs c = false) (l : List Char) :
    stripWs (c :: l) = c :: stripWs l := by
  simp [stripWs, List.filter_cons, h]

theorem not_ws_of_digit {c : Char} (h : isDigitCh c = true) : isWs c = false := by
  cases hw : isWs c
  · rfl
  · exfalso
    simp only [isWs, Bool.or_eq_true, decide_eq_true_eq] at hw
    rcases hw with ((((h1 | h1) | h1) | h1) | h1) | h1 <;> subst h1 <;> revert h <;> decide

theorem stripWs_of_digits {d : List Char} (h : allDigits d = true) : stripWs d = d :=
  List.filter_eq_self.mpr fun a ha => by
    have hd : isDigitCh a = true := List.all_eq_true.mp h a ha
    simp [not_ws_of_digit hd]

theorem isBare_parts {l : List Char} (h : isBareCh l = true) :
    ∃ d, l = '2' :: '5' :: '6' :: '7' :: d ∧ d.length = 8 ∧ allDigits d = true := by
  simp only [isBareCh, Bool.and_eq_true, beq_iff_eq] at h
  obtain ⟨⟨h1, h2⟩, h3⟩ := h
  refine ⟨l.drop 4, ?_, h2, h3⟩
  conv_lhs => rw [← List.take_append_drop 4 l]
  rw [h1]
  rfl

theorem isLocal_parts {l : List Char} (h : isLocalCh l = true) :
    ∃ d, l = '0' :: '7' :: d ∧ d.length = 8 ∧ allDigits d = true := by
  simp only [isLocalCh, Bool.and_eq_true, beq_iff_eq] at h
  obtain ⟨⟨h1, h2⟩, h3⟩ := h
  refine ⟨l.drop 2, ?_, h2, h3⟩
  conv_lhs => rw [← List.take_append_drop 2 l]
  rw [h1]
  rfl

theorem isCanonical_intro {d : List Char} (hlen : d.length = 8) (hdig : allDigits d = true) :
    isCanonicalCh ('+' :: '2' :: '5' :: '6' :: '7' :: d) = true := by
  unfold isCanonicalCh
  rw [show List.take 5 ('+' :: '2' :: '5' :: '6' :: '7' :: d) = ['+', '2', '5', '6', '7'] from rfl,
    show List.drop 5 ('+' :: '2' :: '5' :: '6' :: '7' :: d) = d from rfl, hlen, hdig]
  rfl

theorem isBare_intro {d : List Char} (hlen : d.length = 8) (hdig : allDigits d = true) :
    isBareCh ('2' :: '5' :: '6' :: '7' :: d) = true := by
  unfold isBareCh
  rw [show List.take 4 ('2' :: '5' :: '6' :: '7' :: d) = ['2', '5', '6', '7'] from rfl,
    show List.drop 4 ('2' :: '5' :: '6' :: '7' :: d) = d from rfl, hlen, hdig]
  rfl

theorem isLocal_intro {d : List Char} (hlen : d.length = 8) (hdig : allDigits d = true) :
    isLocalCh ('0' :: '7' :: d) = true := by
  unfold isLocalCh
  rw [show List.take 2 ('0' :: '7' :: d) = ['0', '7'] from rfl,
    show List.drop 2 ('0' :: '7' :: d) = d from rfl, hlen, hdig]
  rfl

theorem stripWs_canonical {d : List Char} (hdig : allDigits d = true) :
    stripWs ('+' :: '2' :: '5' :: '6' :: '7' :: d) = '+' :: '2' :: '5' :: '6' :: '7' :: d := by
  rw [stripWs_cons_not_ws (by decide), stripWs_cons_not_ws (by decide),
    stripWs_cons_not_ws (by decide), stripWs_cons_not_ws (by decide),
    stripWs_cons_not_ws (by decide), stripWs_of_digits hdig]

theorem normCh_of_canonical {l : List Char} (h : isCanonicalCh (stripWs l) = true) :
    normCh l = stripWs l := by
  unfold normCh
  simp [h]

theorem normCh_of_bare {l : List Char} (h1 : isCanonicalCh (stripWs l) = false)
    (h2 : isBareCh (stripWs l) = true) : normCh l = '+' :: stripWs l := by
  unfold normCh
  simp [h1, h2]

theorem normCh_of_local {l : List Char} (h1 : isCanonicalCh (stripWs l) = false)
    (h2 : isBareCh (stripWs l) = false) (h3 : isLocalCh (stripWs l) = true) :
    normCh l = '+' :: '2' :: '5' :: '6' :: (stripWs l).drop 1 := by
  unfold normCh
  simp [h1, h2, h3]

theorem normCh_of_other {l : List Char} (h1 : isCanonicalCh (stripWs l) = false)
    (h2 : isBareCh (stripWs l) = false) (h3 : isLocalCh (stripWs l) = false) :
    normCh l = stripWs l := by
  unfold normCh
  simp [h1, h2, h3]

/-- C6 core: `normCh` is idempotent on character lists. -/
theorem normCh_idem (l : List Char) : normCh (normCh l) = normCh l := by
  cases h1 : isCanonicalCh (stripWs l)
  · cases h2 : isBareCh (stripWs l)
    · cases h3 : isLocalCh (stripWs l)
      · rw [normCh_of_other h1 h2 h3]
        rw [normCh_of_other (by rw [stripWs_idem, h1]) (by rw [stripWs_idem, h2])
          (by rw [stripWs_idem, h3]), stripWs_idem]
      · obtain ⟨d, hshape, hlen, hdig⟩ := isLocal_parts h3
        rw [normCh_of_local h1 h2 h3, hshape,
          show List.drop 1 ('0' :: '7' :: d) = '7' :: d from rfl]
        have hstr := stripWs_canonical hdig
        rw [normCh_of_canonical (by rw [hstr]; exact isCanonical_intro hlen hdig), hstr]
    · obtain ⟨d, hshape, hlen, hdig⟩ := isBare_parts h2
      rw [normCh_of_bare h1 h2, hshape]
      have hstr := stripWs_canonical hdig
      rw [normCh_of_canonical (by rw [hstr]; exact isCanonical_intro hlen hdig), hstr]
  · rw [normCh_of_canonical h1]
    rw [normCh_of_canonical (by rw [stripWs_idem, h1]), stripWs_idem]

/-- C6: phone normalization is idempotent: for every input string,
normalizing twice gives the same result as normalizing once; in particular
normalizing an already-normalized string is a no-op. -/
theorem normalizeUgPhone_idem : ∀ x : String, normalizeUgPhone (normalizeUgPhone x) = normalizeUgPhone x := by
  intro x
  show (⟨normCh (⟨normCh x.data⟩ : String).data⟩ : String) = ⟨normCh x.data⟩
  rw [show (⟨normCh x.data⟩ : String).data = normCh x.data from rfl, normCh_idem]

/-- C7 counterexample: the claim says every token not matching one of the
three recognized forms "is passed through as-is", but the normalizer first
removes all whitespace, so the unrecognized token `"a b"` comes back as
`"ab"`, not as-is. -/
theorem normalizeUgPhone_not_as_is :
    normalizeUgPhone "a b" = "ab" ∧ normalizeUgPhone "a b" ≠ "a b"
      ∧ isCanonicalCh ("a b").data = false ∧ isBareCh ("a b").data = false
      ∧ isLocalCh ("a b").data = false := by
  refine ⟨by decide, by decide, by decide, by decide, by decide⟩

/-- C7 (amended): after whitespace removal, a token in local form
`07XXXXXXXX` is rewritten to `+2567XXXXXXXX`, a token already in canonical
form `+2567XXXXXXXX` is returned unchanged, a token in bare form
`2567XXXXXXXX` gains a leading `+`, and every token matching none of the
three forms is passed through with only its whitespace removed (never a
failure). -/
theorem normalizeUgPhone_cases (rest : List Char) (s : List Char)
    (hlen : rest.length = 8) (hdig : allDigits rest = true)
    (hc : isCanonicalCh (stripWs s) = false) (hb : isBareCh (stripWs s) = false)
    (hl : isLocalCh (stripWs s) = false) :
    normCh ('0' :: '7' :: rest) = '+' :: '2' :: '5' :: '6' :: '7' :: rest
      ∧ normCh ('+' :: '2' :: '5' :: '6' :: '7' :: rest) = '+' :: '2' :: '5' :: '6' :: '7' :: rest
      ∧ normCh ('2' :: '5' :: '6' :: '7' :: rest) = '+' :: '2' :: '5' :: '6' :: '7' :: rest
      ∧ normCh s = stripWs s := by
  have hstrLocal : stripWs ('0' :: '7' :: rest) = '0' :: '7' :: rest := by
    rw [stripWs_cons_not_ws (by decide), stripWs_cons_not_ws (by decide), stripWs_of_digits hdig]
  have hstrBare : stripWs ('2' :: '5' :: '6' :: '7' :: rest) = '2' :: '5' :: '6' :: '7' :: rest := by
    rw [stripWs_cons_not_ws (by decide), stripWs_cons_not_ws (by decide),
      stripWs_cons_not_ws (by decide), stripWs_cons_not_ws (by decide), stripWs_of_digits hdig]
  have hstrCan := stripWs_canonical hdig (d := rest)
  refine ⟨?_, ?_, ?_, ?_⟩
  · rw [normCh_of_local (by rw [hstrLocal]; rfl) (by rw [hstrLocal]; rfl)
      (by rw [hstrLocal]; exact isLocal_intro hlen hdig), hstrLocal]
    rfl
  · rw [normCh_of_canonical (by rw [hstrCan]; exact isCanonical_intro hlen hdig), hstrCan]
  · rw [normCh_of_bare (by rw [hstrBare]; rfl) (by rw [hstrBare]; exact isBare_intro hlen hdig),
      hstrBare]
  · exact normCh_of_other hc hb hl

/-- Witness for `normalizeUgPhone_cases` at a concrete digit block and a
concrete unrecognized token. -/
theorem normalizeUgPhone_cases_witness :
    (['7', '1', '2', '3', '4', '5', '6', '8'] : List Char).length = 8
      ∧ allDigits ['7', '1', '2', '3', '4', '5', '6', '8'] = true
      ∧ isCanonicalCh (stripWs ('a' :: ' ' :: 'b' :: [])) = false
      ∧ isBareCh (stripWs ('a' :: ' ' :: 'b' :: [])) = false
      ∧ isLocalCh (stripWs ('a' :: ' ' :: 'b' :: [])) = false
      ∧ (normCh ('0' :: '7' :: ['7', '1', '2', '3', '4', '5', '6', '8']) =
          '+' :: '2' :: '5' :: '6' :: '7' :: ['7', '1', '2', '3', '4', '5', '6', '8']
        ∧ normCh ('+' :: '2' :: '5' :: '6' :: '7' :: ['7', '1', '2', '3', '4', '5', '6', '8']) =
          '+' :: '2' :: '5' :: '6' :: '7' :: ['7', '1', '2', '3', '4', '5', '6', '8']
        ∧ normCh ('2' :: '5' :: '6' :: '7' :: ['7', '1', '2', '3', '4', '5', '6', '8']) =
          '+' :: '2' :: '5' :: '6' :: '7' :: ['7', '1', '2', '3', '4', '5', '6', '8']
        ∧ normCh ('a' :: ' ' :: 'b' :: []) = stripWs ('a' :: ' ' :: 'b' :: [])) :=
  ⟨by decide, by decide, by decide, by decide, by decide,
    normalizeUgPhone_cases ['7', '1', '2', '3', '4', '5', '6', '8'] ('a' :: ' ' :: 'b' :: [])
      (by decide) (by decide) (by decide) (by decide) (by decide)⟩

/-- C8: the SMS proxy answers 500 for a missing credential, 400 for a
missing/blank phone, then 400 for a missing/blank message, 500 with the
exception message on an unexpected exception, and contacts the upstream
provider exactly when the credential is configured, the body parsed, and
both fields are non-blank. -/
theorem smsPost_spec :
    ∀ (apiKey : Option String) (body : Except String SmsBody) (upstream : UpstreamOutcome),
      smsPost apiKey body upstream = smsPostClaim apiKey body upstream
        ∧ ((smsPost apiKey body upstream).2 = true ↔
            (apiKey.getD "" ≠ "" ∧ ∃ b, body = .ok b
              ∧ jsTrim (b.phone.getD "") ≠ "" ∧ jsTrim (b.message.getD "") ≠ "")) := by
  intro apiKey body upstream
  constructor
  · unfold smsPost smsPostClaim
    rfl
  · unfold smsPost
    by_cases hk : apiKey.getD "" = ""
    · simp [hk]
    · cases body with
      | error e => simp [hk]
      | ok b =>
        by_cases hp : jsTrim (b.phone.getD "") = ""
        · simp [hk, hp]
        · by_cases hm : jsTrim (b.message.getD "") = ""
          · simp [hk, hp, hm]
          · cases upstream <;> simp [hk, hp, hm]

/-- C1: once a record's `boxStatus` is `Released` the status editor
rejects every save without writing to the store; the editor also refuses
to set `Released` directly; hence the editor never writes `Released`, and
`Released` is terminal with respect to the status-save operation. -/
theorem saveBoxStatus_released_terminal :
    (∀ (draft : BoxStatus) (phones : String),
        saveBoxStatus .released draft phones = { write := none, smsAttempted := false })
      ∧ (∀ (current : BoxStatus) (phones : String),
          saveBoxStatus current .released phones = { write := none, smsAttempted := false })
      ∧ (∀ (current draft : BoxStatus) (phones : String),
          (saveBoxStatus current draft phones).write ≠ some .released) := by
  refine ⟨fun draft phones => rfl, fun current phones => ?_, fun current draft phones => ?_⟩
  · unfold saveBoxStatus
    by_cases h : current = BoxStatus.released <;> simp [h]
  · unfold saveBoxStatus
    by_cases h1 : current = BoxStatus.released
    · simp [h1]
    · by_cases h2 : draft = BoxStatus.released <;> simp [h1, h2]

/-- C4: for every completed release of `n` boxes from a record holding `m`
boxes, the stored box count becomes `max 0 (m - n)`, and the free-text
status is set to `"Completed"` exactly when the remaining count is 0 and
to `"Pending Review"` otherwise. -/
theorem releasePatch_spec :
    ∀ (stored : BoxField) (count : Int),
      ((releasePatch stored count).1 = .bstr (toString (max 0 (jsNumBox stored - count)))
          ∨ (releasePatch stored count).1 = .bnum (max 0 (jsNumBox stored - count)))
        ∧ ((releasePatch stored count).2 = "Completed" ↔ max 0 (jsNumBox stored - count) = 0)
        ∧ ((releasePatch stored count).2 ≠ "Completed" →
            (releasePatch stored count).2 = "Pending Review") := by
  intro stored count
  refine ⟨?_, ?_, ?_⟩
  · cases stored <;> simp [releasePatch, releaseCore]
  · unfold releasePatch releaseCore
    by_cases h : max 0 (jsNumBox stored - count) = 0 <;> simp [h]
  · unfold releasePatch releaseCore
    by_cases h : max 0 (jsNumBox stored - count) = 0 <;> simp [h]

/-- C10: the release write preserves the stored representation of the box
count: a string-typed `boxesImpounded` is written back as a string, a
number-typed one as a number. -/
theorem releasePatch_preserves_repr :
    (∀ (s : String) (count : Int),
        ∃ s', (releasePatch (.bstr s) count).1 = .bstr s')
      ∧ (∀ (n : Int) (count : Int),
          ∃ n', (releasePatch (.bnum n) count).1 = .bnum n') := by
  constructor
  · intro s count
    exact ⟨toString (releaseCore (jsNumBox (.bstr s)) count).1, rfl⟩
  · intro n count
    exact ⟨(releaseCore (jsNumBox (.bnum n)) count).1, rfl⟩

/-- C3 counterexample: the claim says every release submission rejects a
non-integer `boxesReleased`, rejects values `<= 0`, and rejects values
exceeding the impounded count — but the inspection-detail validator
accepts the string "0" (all other fields valid), and the bounded-drugs
guard accepts the non-integer string "3.7", which `parseInt` silently
truncates to 3. -/
theorem releaseValidation_leaks :
    validateRelease ⟨"2024-01-01", "Client", "0712345678", "Officer", "", "0"⟩ true = []
      ∧ bdValidate 5 ⟨"2024-01-01", "Client", "0712345678", "Officer", "3.7", true⟩ = none
      ∧ jsParseInt "3.7" = some 3 ∧ jsParseInt "0" = some 0 := by
  refine ⟨by decide, by decide, by decide, by decide⟩

/-- C3 (amended): the bounded-drugs release guard passes exactly when all
text fields are filled, the telephone matches the loose pattern,
`parseInt(boxesReleased, 10)` yields a value `c` with `0 < c ≤ available`
(the boundary `c = available` is accepted; a string such as "3.7" passes
because `parseInt` truncates it), and the confirmation step is complete;
the inspection-detail validator passes exactly when its text fields are
filled, `boxesReleased` is a digit string (so "0" and values exceeding the
impounded count pass), and consent is given. -/
theorem releaseValidation_spec :
    (∀ (available : Int) (f : ReleaseFormBd),
        bdValidate available f = none ↔
          (f.relDate ≠ "" ∧ jsTrim f.clientName ≠ "" ∧ jsTrim f.telephone ≠ ""
            ∧ telOk f.telephone = true ∧ jsTrim f.releasedBy ≠ "" ∧ f.canConfirm = true
            ∧ ∃ c, jsParseInt f.boxesReleased = some c ∧ 0 < c ∧ c ≤ available))
      ∧ (∀ (f : ReleaseFormP6) (consent : Bool),
          validateRelease f consent = [] ↔
            (f.releaseDate ≠ "" ∧ jsTrim f.clientName ≠ "" ∧ jsTrim f.telephone ≠ ""
              ∧ jsTrim f.releasedBy ≠ ""
              ∧ jsTrim f.boxesReleased ≠ "" ∧ digitString f.boxesReleased = true
              ∧ consent = true)) := by
  constructor
  · intro available f
    unfold bdValidate
    by_cases h1 : f.relDate = ""
    · simp [h1]
    · by_cases h2 : jsTrim f.clientName = ""
      · simp [h1, h2]
      · by_cases h3 : jsTrim f.telephone = ""
        · simp [h1, h2, h3]
        · cases h4 : telOk f.telephone
          · simp [h1, h2, h3, h4]
          · by_cases h5 : jsTrim f.releasedBy = ""
            · simp [h1, h2, h3, h4, h5]
            · cases h6 : jsParseInt f.boxesReleased with
              | none => simp [h1, h2, h3, h4, h5, h6]
              | some c =>
                by_cases h7 : c ≤ 0
                · simp [h1, h2, h3, h4, h5, h6, h7]
                · by_cases h8 : available < c
                  · simp [h1, h2, h3, h4, h5, h6, h7, h8]
                  · cases h9 : f.canConfirm
                    · simp [h1, h2, h3, h4, h5, h6, h7, h8, h9]
                    · simp [h1, h2, h3, h4, h5, h6, h7, h8, h9]
                      omega
  · intro f consent
    unfold validateRelease
    by_cases h1 : f.releaseDate = "" <;>
      by_cases h2 : jsTrim f.clientName = "" <;>
        by_cases h3 : jsTrim f.telephone = "" <;>
          by_cases h4 : jsTrim f.releasedBy = "" <;>
            by_cases h5 : jsTrim f.boxesReleased = "" <;>
              cases h6 : digitString f.boxesReleased <;>
                cases consent <;>
                  simp [h1, h2, h3, h4, h5, h6]

/-- C2 counterexample: in the inspection-detail release workflow the first
side effect is the SMS send, not a store write, and when the SMS fails the
release aborts with no store write at all — the claim's
"store writes first, SMS second, SMS failure non-blocking" fails for this
release submission path. -/
theorem handleReleaseSubmit_sms_first :
    (handleReleaseSubmitRun false).events = [.smsAttempt, .patchSubmission]
      ∧ (handleReleaseSubmitRun false).events.head? = some .smsAttempt
      ∧ handleReleaseSubmitRun true =
          { events := [.smsAttempt], success := false, smsWarning := false } :=
  ⟨rfl, rfl, rfl⟩

/-- C2 (amended): in the two bounded-drugs release workflows the store
writes (release record, then inspection patch) precede the SMS send, an
SMS failure does not abort the committed release, and the workflow still
reports success with a non-blocking warning; the inspection-detail
workflow instead sends the SMS first and aborts without writing when the
send fails. -/
theorem releaseRuns_ordering :
    ∀ smsFails : Bool,
      ((handleSubmitReleaseRun smsFails).events
            = [.pushReleaseRecord, .patchInspection, .smsAttempt]
        ∧ (handleSubmitReleaseRun smsFails).success = true
        ∧ (handleSubmitReleaseRun smsFails).smsWarning = smsFails)
      ∧ handleSubmitReleaseP4Run smsFails = handleSubmitReleaseRun smsFails
      ∧ ((handleReleaseSubmitRun smsFails).events.head? = some .smsAttempt
        ∧ (handleReleaseSubmitRun smsFails).success = !smsFails
        ∧ (smsFails = true → (handleReleaseSubmitRun smsFails).events = [.smsAttempt])) := by
  intro smsFails
  cases smsFails <;> decide

theorem remindStep_skipped {daysSince smsOk st} {r : InspRec} (h : remindSkipped r) :
    remindStep daysSince smsOk st r = st := by
  unfold remindStep
  cases himp : r.imp with
  | none => rfl
  | some imp =>
    show remindStepImp daysSince smsOk st r imp = st
    unfold remindStepImp
    rcases h imp himp with hset | hst
    · by_cases hbs : imp.boxStatus ≠ BoxStatus.inStore
      · rw [if_pos hbs]
      · rw [if_neg hbs, if_pos hset]
    · rw [if_pos hst]

/-- The step changes `smsLog`, `patches` and `session` only by possibly
appending the processed record's own id. -/
theorem remindStep_shape (daysSince smsOk st) (r : InspRec) :
    remindStep daysSince smsOk st r = st
      ∨ remindStep daysSince smsOk st r =
          { smsLog := st.smsLog ++ [r.id], patches := st.patches ++ [r.id]
            session := st.session ++ [r.id] }
      ∨ remindStep daysSince smsOk st r = { st with smsLog := st.smsLog ++ [r.id] } := by
  unfold remindStep remindStepImp
  split
  · exact Or.inl rfl
  · split
    · exact Or.inl rfl
    · split
      · exact Or.inl rfl
      · split
        · exact Or.inl rfl
        · split
          · exact Or.inl rfl
          · split
            · exact Or.inl rfl
            · split
              · exact Or.inl rfl
              · split
                · exact Or.inr (Or.inl rfl)
                · exact Or.inr (Or.inr rfl)

/-- Counts of a foreign id are untouched by the step. -/
theorem remindStep_count_other {rid : String} (daysSince smsOk st) (r : InspRec)
    (hne : r.id ≠ rid) :
    List.count rid (remindStep daysSince smsOk st r).smsLog = List.count rid st.smsLog := by
  rcases remindStep_shape daysSince smsOk st r with h | h | h <;>
    simp [h, List.count_append, List.count_cons, List.count_nil, hne]

theorem remindStep_session_other {rid : String} (daysSince smsOk st) (r : InspRec)
    (hne : r.id ≠ rid) (hnotin : rid ∉ st.session) :
    rid ∉ (remindStep daysSince smsOk st r).session := by
  rcases remindStep_shape daysSince smsOk st r with h | h | h <;>
    simp [h, hnotin, Ne.symm hne]

theorem remindStep_patches_mono {rid : String} (daysSince smsOk st) (r : InspRec)
    (hin : rid ∈ st.patches) :
    rid ∈ (remindStep daysSince smsOk st r).patches := by
  rcases remindStep_shape daysSince smsOk st r with h | h | h <;> simp [h, hin]

theorem autoRemindPass_count_other {rid : String} (daysSince smsOk) (rs : List InspRec) (st)
    (h : ∀ x ∈ rs, x.id ≠ rid) :
    List.count rid (autoRemindPass daysSince smsOk rs st).smsLog
      = List.count rid st.smsLog := by
  induction rs generalizing st with
  | nil => rfl
  | cons x t ih =>
    rw [show autoRemindPass daysSince smsOk (x :: t) st
        = autoRemindPass daysSince smsOk t (remindStep daysSince smsOk st x) from rfl,
      ih _ fun y hy => h y (List.mem_cons_of_mem x hy),
      remindStep_count_other daysSince smsOk st x (h x (List.mem_cons_self x t))]

theorem autoRemindPass_session_other {rid : String} (daysSince smsOk) (rs : List InspRec) (st)
    (h : ∀ x ∈ rs, x.id ≠ rid) (hnotin : rid ∉ st.session) :
    rid ∉ (autoRemindPass daysSince smsOk rs st).session := by
  induction rs generalizing st with
  | nil => exact hnotin
  | cons x t ih =>
    exact ih _ (fun y hy => h y (List.mem_cons_of_mem x hy))
      (remindStep_session_other daysSince smsOk st x (h x (List.mem_cons_self x t)) hnotin)

theorem autoRemindPass_patches_mono {rid : String} (daysSince smsOk) (rs : List InspRec) (st)
    (hin : rid ∈ st.patches) :
    rid ∈ (autoRemindPass daysSince smsOk rs st).patches := by
  induction rs generalizing st with
  | nil => exact hin
  | cons x t ih =>
    exact ih _ (remindStep_patches_mono daysSince smsOk st x hin)

theorem autoRemindPass_count_skipped {rid : String} (daysSince smsOk) (rs : List InspRec) (st)
    (h : ∀ x ∈ rs, x.id = rid → remindSkipped x) :
    List.count rid (autoRemindPass daysSince smsOk rs st).smsLog
      = List.count rid st.smsLog := by
  induction rs generalizing st with
  | nil => rfl
  | cons x t ih =>
    rw [show autoRemindPass daysSince smsOk (x :: t) st
        = autoRemindPass daysSince smsOk t (remindStep daysSince smsOk st x) from rfl,
      ih _ fun y hy => h y (List.mem_cons_of_mem x hy)]
    by_cases hx : x.id = rid
    · rw [remindStep_skipped (h x (List.mem_cons_self x t) hx)]
    · rw [remindStep_count_other daysSince smsOk st x hx]

/-- The step on an eligible record not yet in the session, with a
successful send. -/
theorem remindStep_fires (daysSince smsOk st) (r : InspRec) (imp : ImpBlock) (d : Nat)
    (himp : r.imp = some imp) (hstatus : imp.boxStatus = .inStore)
    (hnotyet : imp.reminder100SentAt = none)
    (hsess : r.id ∉ st.session)
    (hdays : (jsOrStr imp.impoundmentDate r.metaDate).bind daysSince = some d)
    (hgt : 100 < d)
    (hphones : collectOwnerPhones r.drugshopContactPhones ≠ "")
    (hok : smsOk r.id = true) :
    remindStep daysSince smsOk st r =
      { smsLog := st.smsLog ++ [r.id], patches := st.patches ++ [r.id]
        session := st.session ++ [r.id] } := by
  unfold remindStep
  rw [himp]
  show remindStepImp daysSince smsOk st r imp = _
  unfold remindStepImp
  simp [hstatus, hnotyet, hsess, hdays, Nat.not_le.mpr hgt, hphones, hok]

/-- C5 counterexample: a record that satisfies every condition the claim
names — `boxStatus = In Store`, no reminder timestamp, days in store above
100 — but has no owner phone: the evaluation pass sends zero reminder SMS
for it instead of the claimed exactly one. -/
theorem autoRemind_skips_phoneless :
    (autoRemindPass (fun _ => some 150) (fun _ => true)
        [⟨"rec1", some ⟨.inStore, none, some "2024-01-01"⟩, none, none⟩]
        ⟨[], [], []⟩).smsLog = []
      ∧ (autoRemindPass (fun _ => some 150) (fun _ => true)
          [⟨"rec1", some ⟨.inStore, none, some "2024-01-01"⟩, none, none⟩]
          ⟨[], [], []⟩).patches = []
      ∧ (jsOrStr (some "2024-01-01") none).bind (fun _ => some (150 : Nat)) = some 150
      ∧ (100 : Nat) < 150
      ∧ collectOwnerPhones none = "" :=
  ⟨rfl, rfl, rfl, by decide, rfl⟩

/-- C5 (amended): for every inspection list with distinct ids, a record
that is `In Store`, has no reminder timestamp, has been in store more than
100 days, has a non-empty owner phone list and whose SMS send succeeds
gets exactly one reminder SMS in one evaluation pass, and its
`reminder100SentAt` is patched; a later pass over the patched records
sends zero additional SMS for that record. -/
theorem autoRemind_once (daysSince : String → Option Nat) (smsOk : String → Bool) (now : String)
    (rs : List InspRec) (r : InspRec) (imp : ImpBlock) (d : Nat)
    (hnodup : (rs.map InspRec.id).Nodup)
    (hmem : r ∈ rs)
    (himp : r.imp = some imp)
    (hstatus : imp.boxStatus = .inStore)
    (hnotyet : imp.reminder100SentAt = none)
    (hdays : (jsOrStr imp.impoundmentDate r.metaDate).bind daysSince = some d)
    (hgt : 100 < d)
    (hphones : collectOwnerPhones r.drugshopContactPhones ≠ "")
    (hok : smsOk r.id = true) :
    List.count r.id (autoRemindPass daysSince smsOk rs ⟨[], [], []⟩).smsLog = 1
      ∧ r.id ∈ (autoRemindPass daysSince smsOk rs ⟨[], [], []⟩).patches
      ∧ List.count r.id (autoRemindPass daysSince smsOk
          (applyReminderPatch now (autoRemindPass daysSince smsOk rs ⟨[], [], []⟩).patches rs)
          ⟨[], [], []⟩).smsLog = 0 := by
  obtain ⟨l1, l2, hsplit⟩ := List.append_of_mem hmem
  subst hsplit
  have hids : r.id ∉ l1.map InspRec.id ∧ r.id ∉ l2.map InspRec.id := by
    rw [List.map_append, List.map_cons] at hnodup
    have h1 := (List.nodup_append.mp hnodup).2.2
    have h2 := (List.nodup_append.mp hnodup).2.1
    constructor
    · intro hmem1
      exact h1 hmem1 (List.mem_cons_self _ _)
    · exact (List.nodup_cons.mp h2).1
  have hne1 : ∀ x ∈ l1, x.id ≠ r.id := by
    intro x hx heq
    exact hids.1 (heq ▸ List.mem_map_of_mem InspRec.id hx)
  have hne2 : ∀ x ∈ l2, x.id ≠ r.id := by
    intro x hx heq
    exact hids.2 (heq ▸ List.mem_map_of_mem InspRec.id hx)
  set st0 : RemindSt := ⟨[], [], []⟩ with hst0
  have hpassfold : autoRemindPass daysSince smsOk (l1 ++ r :: l2) st0
      = autoRemindPass daysSince smsOk l2
          (remindStep daysSince smsOk (autoRemindPass daysSince smsOk l1 st0) r) := by
    unfold autoRemindPass
    rw [List.foldl_append]
    rfl
  set st1 := autoRemindPass daysSince smsOk l1 st0 with hst1
  have hsess1 : r.id ∉ st1.session :=
    autoRemindPass_session_other daysSince smsOk l1 st0 hne1 (by simp [hst0])
  have hfire := remindStep_fires daysSince smsOk st1 r imp d himp hstatus hnotyet hsess1
    hdays hgt hphones hok
  have hcount1 : List.count r.id st1.smsLog = 0 := by
    rw [hst1, autoRemindPass_count_other daysSince smsOk l1 st0 hne1]
    simp [hst0]
  refine ⟨?_, ?_, ?_⟩
  · rw [hpassfold, autoRemindPass_count_other daysSince smsOk l2 _ hne2, hfire]
    simp [List.count_append, hcount1]
  · rw [hpassfold]
    apply autoRemindPass_patches_mono
    rw [hfire]
    simp
  · have hpatched : r.id ∈ (autoRemindPass daysSince smsOk (l1 ++ r :: l2) st0).patches := by
      rw [hpassfold]
      apply autoRemindPass_patches_mono
      rw [hfire]
      simp
    set patchedIds := (autoRemindPass daysSince smsOk (l1 ++ r :: l2) st0).patches
      with hpids
    have hskip : ∀ x ∈ applyReminderPatch now patchedIds (l1 ++ r :: l2),
        x.id = r.id → remindSkipped x := by
      intro x hx hxid
      simp only [applyReminderPatch, List.mem_map] at hx
      obtain ⟨y, hy, hyx⟩ := hx
      intro imp' himp'
      by_cases hyin : y.id ∈ patchedIds
      · have hximp : x.imp = setReminder now y.imp := by
          rw [← hyx, if_pos hyin]
        rw [hximp] at himp'
        cases hyimp : y.imp with
        | none =>
          rw [hyimp] at himp'
          exact absurd himp' (by simp [setReminder])
        | some yimp =>
          rw [hyimp] at himp'
          left
          simp only [setReminder, Option.some.injEq] at himp'
          rw [← himp']
          rfl
      · have hxy : x = y := by
          rw [← hyx, if_neg hyin]
        rw [hxy] at hxid
        exact absurd (show y.id ∈ patchedIds by rw [hxid]; exact hpatched) hyin
    rw [autoRemindPass_count_skipped daysSince smsOk _ _ hskip]
    simp [hst0]

/-- Witness for `autoRemind_once` at a concrete one-record list whose
record is eligible in every respect. -/
theorem autoRemind_once_witness :
    (([⟨"rec1", some ⟨.inStore, none, some "2024-01-01"⟩, none, some "0712345678"⟩]
          : List InspRec).map InspRec.id).Nodup
      ∧ ((⟨"rec1", some ⟨.inStore, none, some "2024-01-01"⟩, none, some "0712345678"⟩ : InspRec)
          ∈ ([⟨"rec1", some ⟨.inStore, none, some "2024-01-01"⟩, none, some "0712345678"⟩]
              : List InspRec))
      ∧ collectOwnerPhones (some "0712345678") ≠ ""
      ∧ (List.count "rec1" (autoRemindPass (fun _ => some 150) (fun _ => true)
            [⟨"rec1", some ⟨.inStore, none, some "2024-01-01"⟩, none, some "0712345678"⟩]
            ⟨[], [], []⟩).smsLog = 1
        ∧ "rec1" ∈ (autoRemindPass (fun _ => some 150) (fun _ => true)
            [⟨"rec1", some ⟨.inStore, none, some "2024-01-01"⟩, none, some "0712345678"⟩]
            ⟨[], [], []⟩).patches
        ∧ List.count "rec1" (autoRemindPass (fun _ => some 150) (fun _ => true)
            (applyReminderPatch "2024-06-01"
              (autoRemindPass (fun _ => some 150) (fun _ => true)
                [⟨"rec1", some ⟨.inStore, none, some "2024-01-01"⟩, none, some "0712345678"⟩]
                ⟨[], [], []⟩).patches
              [⟨"rec1", some ⟨.inStore, none, some "2024-01-01"⟩, none, some "0712345678"⟩])
            ⟨[], [], []⟩).smsLog = 0) :=
  ⟨by decide, by decide, by decide,
    autoRemind_once (fun _ => some 150) (fun _ => true) "2024-06-01"
      [⟨"rec1", some ⟨.inStore, none, some "2024-01-01"⟩, none, some "0712345678"⟩]
      ⟨"rec1", some ⟨.inStore, none, some "2024-01-01"⟩, none, some "0712345678"⟩
      ⟨.inStore, none, some "2024-01-01"⟩ 150
      (by decide) (by decide) rfl rfl rfl rfl (by decide) (by decide) rfl⟩

/-! ### Key-order lemmas -/

theorem lexLe_refl (l : List Char) : lexLe l l = true := by
  induction l with
  | nil => rfl
  | cons a t ih => simp [lexLe, ih]

theorem lexLe_trans : ∀ {a b c : List Char},
    lexLe a b = true → lexLe b c = true → lexLe a c = true := by
  intro a
  induction a with
  | nil => intro b c _ _; rfl
  | cons x as ih =>
    intro b c h1 h2
    cases b with
    | nil => simp [lexLe] at h1
    | cons y bs =>
      cases c with
      | nil => simp [lexLe] at h2
      | cons z cs =>
        by_cases hxy : x.toNat < y.toNat
        · by_cases hyz : y.toNat < z.toNat
          · have hxz : x.toNat < z.toNat := Nat.lt_trans hxy hyz
            simp [lexLe, hxz]
          · by_cases hzy : z.toNat < y.toNat
            · simp [lexLe, hyz, hzy] at h2
            · have hyzeq : y.toNat = z.toNat :=
                Nat.le_antisymm (Nat.not_lt.mp hzy) (Nat.not_lt.mp hyz)
              simp [lexLe, hyzeq ▸ hxy]
        · by_cases hyx : y.toNat < x.toNat
          · simp [lexLe, hxy, hyx] at h1
          · have hxyeq : x.toNat = y.toNat :=
              Nat.le_antisymm (Nat.not_lt.mp hyx) (Nat.not_lt.mp hxy)
            simp only [lexLe, hxy, hyx, if_false] at h1
            by_cases hyz : y.toNat < z.toNat
            · have : x.toNat < z.toNat := hxyeq ▸ hyz
              simp [lexLe, this]
            · by_cases hzy : z.toNat < y.toNat
              · simp [lexLe, hyz, hzy] at h2
              · simp only [lexLe, hyz, hzy, if_false] at h2
                have hxz : ¬ x.toNat < z.toNat := by omega
                have hzx : ¬ z.toNat < x.toNat := by omega
                simp only [lexLe, hxz, hzx, if_false]
                exact ih h1 h2

theorem lexLe_antisymm : ∀ {a b : List Char},
    lexLe a b = true → lexLe b a = true → a = b := by
  intro a
  induction a with
  | nil =>
    intro b _ h2
    cases b with
    | nil => rfl
    | cons y bs => simp [lexLe] at h2
  | cons x as ih =>
    intro b h1 h2
    cases b with
    | nil => simp [lexLe] at h1
    | cons y bs =>
      by_cases hxy : x.toNat < y.toNat
      · simp [lexLe, hxy, Nat.lt_asymm hxy] at h2
      · by_cases hyx : y.toNat < x.toNat
        · simp [lexLe, hxy, hyx] at h1
        · have hcheq : x = y := Char.eq_of_val_eq (by
            have := Nat.le_antisymm (Nat.not_lt.mp hyx) (Nat.not_lt.mp hxy)
            exact UInt32.eq_of_val_eq (Fin.eq_of_val_eq this))
          subst hcheq
          simp only [lexLe, hxy, hyx, if_false] at h1 h2
          rw [ih h1 h2]

theorem keyLe_refl (k : RKey) : keyLe k k = true := by
  cases k with
  | num n => simp [keyLe]
  | str s => simp [keyLe, lexLe_refl]

theorem keyLe_trans : ∀ {a b c : RKey},
    keyLe a b = true → keyLe b c = true → keyLe a c = true := by
  intro a b c h1 h2
  cases a <;> cases b <;> cases c <;>
    simp_all [keyLe] <;> first
      | omega
      | exact lexLe_trans h1 h2

theorem keyLe_antisymm : ∀ {a b : RKey},
    keyLe a b = true → keyLe b a = true → a = b := by
  intro a b h1 h2
  cases a <;> cases b <;> simp_all [keyLe] <;> first
    | omega
    | exact lexLe_antisymm h1 h2

/-! ### Pagination lemmas -/

theorem takeLast_sublist (n : Nat) (l : List PageRec) : (takeLast n l).Sublist l :=
  List.drop_sublist _ _

theorem takeLast_length_le (n : Nat) (l : List PageRec) : (takeLast n l).length ≤ n := by
  simp only [takeLast, List.length_drop]
  omega

theorem countP_lt_of_witness {α : Type} {p q : α → Bool} {l : List α}
    (hmono : ∀ x ∈ l, p x = true → q x = true)
    {x0 : α} (hx0 : x0 ∈ l) (hq : q x0 = true) (hp : p x0 = false) :
    l.countP p < l.countP q := by
  induction l with
  | nil => cases hx0
  | cons a t ih =>
    rw [List.countP_cons, List.countP_cons]
    rcases List.mem_cons.mp hx0 with rfl | hx0t
    · have hle : t.countP p ≤ t.countP q :=
        List.countP_mono_left (fun x hx => hmono x (List.mem_cons_of_mem _ hx))
      simp [hp, hq]
      omega
    · have hlt := ih (fun x hx => hmono x (List.mem_cons_of_mem _ hx)) hx0t
      by_cases hpa : p a = true
      · have hqa := hmono a (List.mem_cons_self a t) hpa
        simp [hpa, hqa]
        omega
      · rw [Bool.not_eq_true] at hpa
        by_cases hqa : q a = true <;> simp [hpa, hqa] <;> omega

theorem lastMinFrom_mem (ms : PageRec → Int) :
    ∀ (l : List PageRec) (best : PageRec), lastMinFrom ms best l ∈ best :: l := by
  intro l
  induction l with
  | nil =>
    intro best
    exact List.mem_cons_self _ _
  | cons r t ih =>
    intro best
    by_cases h : ms r ≤ ms best
    · have h1 : lastMinFrom ms best (r :: t) = lastMinFrom ms r t := by
        show lastMinFrom ms (if ms r ≤ ms best then r else best) t = lastMinFrom ms r t
        rw [if_pos h]
      rw [h1]
      exact List.mem_cons_of_mem best (ih r)
    · have h1 : lastMinFrom ms best (r :: t) = lastMinFrom ms best t := by
        show lastMinFrom ms (if ms r ≤ ms best then r else best) t = lastMinFrom ms best t
        rw [if_neg h]
      rw [h1]
      rcases List.mem_cons.mp (ih best) with h2 | h2
      · rw [h2]
        exact List.mem_cons_self _ _
      · exact List.mem_cons_of_mem best (List.mem_cons_of_mem r h2)

theorem lastMinByMs_cons (ms : PageRec → Int) (r : PageRec) (t : List PageRec) :
    lastMinByMs ms (r :: t) = some (lastMinFrom ms r t) :=
  rfl

/-- A full batch whose cursor element has a numeric key strictly shrinks
the remaining match set: the next bound is `cursor - 1`, which excludes
the cursor element itself while admitting only records the current bound
already admitted. -/
theorem fetch_progress_num (D : List PageRec) (c : RKey) (b : PageRec) (v : Int)
    (hbF : b ∈ D.filter (fun r => keyLe r.createdAt (queryBound c)))
    (hk : b.createdAt = .num v) :
    (D.filter (fun r => keyLe r.createdAt (queryBound (RKey.num v)))).length
      < (D.filter (fun r => keyLe r.createdAt (queryBound c))).length := by
  have hbD : b ∈ D := (List.mem_filter.mp hbF).1
  have hble : keyLe b.createdAt (queryBound c) = true := (List.mem_filter.mp hbF).2
  have hqb : keyLe (queryBound (RKey.num v)) (queryBound c) = true := by
    refine keyLe_trans (b := RKey.num v) ?_ (hk ▸ hble)
    simp only [queryBound, keyLe, decide_eq_true_eq]
    omega
  rw [← List.countP_eq_length_filter, ← List.countP_eq_length_filter]
  refine countP_lt_of_witness (fun r _ hp => keyLe_trans hp hqb) hbD hble ?_
  rw [hk]
  simp only [queryBound, keyLe, decide_eq_false_iff_not]
  omega

/-- Strong-induction engine for termination over all-numeric datasets:
from a live state whose remaining match set is smaller than `m`, some
number of `loadMore` calls reaches the end. -/
theorem loadMore_reaches_end_aux (parse : List Char → Option Int) (D : List PageRec)
    (hnum : ∀ r ∈ D, isNumKey r.createdAt = true) :
    ∀ (m : Nat) (s : PgState), s.reachedEnd = false →
      ∀ c, s.cursor = some c →
        (D.filter (fun r => keyLe r.createdAt (queryBound c))).length < m →
        ∃ n, ((loadMoreStep parse D)^[n] s).reachedEnd = true := by
  intro m
  induction m with
  | zero =>
    intro s _ c _ h
    omega
  | succ m ih =>
    intro s hend c hc hlt
    have hstep : loadMoreStep parse D s =
        (if (fetchEndAt D (queryBound c)).isEmpty then { s with reachedEnd := true }
         else
           { items := mergeDedup s.items (fetchEndAt D (queryBound c))
             cursor := (lastMinByMs (recMs parse)
               (fetchEndAt D (queryBound c))).map PageRec.createdAt
             reachedEnd := decide ((fetchEndAt D (queryBound c)).length < PAGE_SIZE) }) := by
      simp [loadMoreStep, hend, hc]
    cases hbe : (fetchEndAt D (queryBound c)).isEmpty
    · rw [hbe] at hstep
      simp only [Bool.false_eq_true, if_false] at hstep
      obtain ⟨h0, t0, hbatch⟩ : ∃ h0 t0, fetchEndAt D (queryBound c) = h0 :: t0 := by
        cases hfb : fetchEndAt D (queryBound c) with
        | nil =>
          rw [hfb] at hbe
          simp at hbe
        | cons a b => exact ⟨a, b, rfl⟩
      by_cases hlen : (fetchEndAt D (queryBound c)).length < PAGE_SIZE
      · refine ⟨1, ?_⟩
        show (loadMoreStep parse D s).reachedEnd = true
        rw [hstep]
        simp [hlen]
      · have hbm : lastMinByMs (recMs parse) (fetchEndAt D (queryBound c))
            = some (lastMinFrom (recMs parse) h0 t0) := by
          rw [hbatch]
          exact lastMinByMs_cons _ _ _
        have hbmem : lastMinFrom (recMs parse) h0 t0 ∈ fetchEndAt D (queryBound c) := by
          rw [hbatch]
          exact lastMinFrom_mem _ _ _
        have hbF : lastMinFrom (recMs parse) h0 t0
            ∈ D.filter (fun r => keyLe r.createdAt (queryBound c)) :=
          (takeLast_sublist _ _).subset hbmem
        obtain ⟨v, hk⟩ : ∃ v, (lastMinFrom (recMs parse) h0 t0).createdAt = RKey.num v := by
          have hnb := hnum _ (List.mem_filter.mp hbF).1
          cases hbk : (lastMinFrom (recMs parse) h0 t0).createdAt with
          | num n => exact ⟨n, rfl⟩
          | str s =>
            rw [hbk] at hnb
            simp [isNumKey] at hnb
        have hprog := fetch_progress_num D c _ v hbF hk
        have hs'end : (loadMoreStep parse D s).reachedEnd = false := by
          rw [hstep]
          simp [hlen]
        have hs'cur : (loadMoreStep parse D s).cursor = some (RKey.num v) := by
          rw [hstep]
          simp [hbm, hk]
        obtain ⟨n, hn⟩ := ih (loadMoreStep parse D s) hs'end (RKey.num v) hs'cur (by omega)
        exact ⟨n + 1, by rw [Function.iterate_succ_apply]; exact hn⟩
    · refine ⟨1, ?_⟩
      show (loadMoreStep parse D s).reachedEnd = true
      rw [hstep, hbe]
      rfl

/-- Merging with id-deduplication preserves distinctness of ids. -/
theorem mergeDedup_nodup {prev batch : List PageRec}
    (hp : (prev.map PageRec.id).Nodup) (hb : (batch.map PageRec.id).Nodup) :
    ((mergeDedup prev batch).map PageRec.id).Nodup := by
  unfold mergeDedup
  rw [List.map_append, List.nodup_append]
  refine ⟨hp, List.Nodup.sublist (List.Sublist.map _ (List.filter_sublist _)) hb, ?_⟩
  intro a ha hafil
  obtain ⟨it, hit, rfl⟩ := List.mem_map.mp hafil
  have hnc := (List.mem_filter.mp hit).2
  rw [Bool.not_eq_true'] at hnc
  have hnotin : it.id ∉ prev.map PageRec.id := by
    intro hmem
    rw [show (prev.map PageRec.id).contains it.id
        = List.elem it.id (prev.map PageRec.id) from rfl, List.elem_iff.mpr hmem] at hnc
    cases hnc
  exact hnotin ha

theorem loadMoreStep_items_nodup (parse : List Char → Option Int) (D : List PageRec)
    (hD : (D.map PageRec.id).Nodup) (s : PgState)
    (hs : (s.items.map PageRec.id).Nodup) :
    ((loadMoreStep parse D s).items.map PageRec.id).Nodup := by
  unfold loadMoreStep
  split
  · exact hs
  · split
    · exact hs
    · split
      · exact hs
      · exact mergeDedup_nodup hs
          (List.Nodup.sublist
            (List.Sublist.map _ ((takeLast_sublist _ _).trans (List.filter_sublist _))) hD)

set_option maxRecDepth 8000 in
/-- C9 counterexample: a fixed 25-record dataset whose records all share
one string-typed `createdAt` value, with `Date.parse` failing on it (the
oracle returns `none`), so every record's `createdAtMs` is 0.  The stable
descending sort then leaves the batch in store order and the client's
cursor — `batch[batch.length - 1]` — is the store-order maximum of the
batch, whose key equals the current inclusive `endAt` bound: the live
post-initial state is a fixpoint of `loadMore` that keeps fetching the
same full batch, and `reachedEnd` is never set — repeated load-more calls
do not terminate on this dataset, refuting the claim's "for every fixed
dataset". -/
theorem loadMore_nonterminating :
    (initState (fun _ => none) pagingLoopData).reachedEnd = false
      ∧ didFetch (initState (fun _ => none) pagingLoopData) = true
      ∧ loadMoreStep (fun _ => none) pagingLoopData (initState (fun _ => none) pagingLoopData)
          = initState (fun _ => none) pagingLoopData
      ∧ (pagingLoopData.filter
          (fun r => r.createdAt == RKey.str ['t'])).length = 25 := by
  refine ⟨by decide, by decide, by decide, by decide⟩

/-- C9 (amended): over every fixed dataset (in ascending store-key order)
with distinct ids, and for every behaviour of `Date.parse`: the merged
item list never holds two entries with the same id; a call whose fetched
batch is empty or smaller than `PAGE_SIZE` (24) marks the end, after
which every call returns without fetching; and when every `createdAt`
value is numeric, repeated load-more calls terminate (some call sets
`reachedEnd`).  Termination is not claimed for string-typed timestamps:
the next cursor is the last element of the stable descending
`createdAtMs` sort, and with the inclusive string `endAt` bound the
cursor can pin on a batch maximum and refetch forever. -/
theorem loadMore_spec (parse : List Char → Option Int) (D : List PageRec)
    (hnodup : (D.map PageRec.id).Nodup) :
    ((∀ r ∈ D, isNumKey r.createdAt = true) →
        ∃ n, ((loadMoreStep parse D)^[n] (initState parse D)).reachedEnd = true)
      ∧ (∀ s : PgState, s.reachedEnd = true →
          loadMoreStep parse D s = s ∧ didFetch s = false)
      ∧ (∀ (s : PgState) (c : RKey), s.reachedEnd = false → s.cursor = some c →
          (fetchEndAt D (queryBound c)).length < PAGE_SIZE →
          (loadMoreStep parse D s).reachedEnd = true)
      ∧ (∀ n, (((loadMoreStep parse D)^[n] (initState parse D)).items.map
          PageRec.id).Nodup) := by
  refine ⟨?_, ?_, ?_, ?_⟩
  · intro hnum
    by_cases hinit : (initFetch D).length < PAGE_SIZE
    · exact ⟨0, by simp [initState, hinit]⟩
    · obtain ⟨h0, t0, hb⟩ : ∃ h0 t0, initFetch D = h0 :: t0 := by
        cases hfb : initFetch D with
        | nil =>
          rw [hfb] at hinit
          exact absurd (by simp [PAGE_SIZE]) hinit
        | cons a b => exact ⟨a, b, rfl⟩
      have hbm : lastMinByMs (recMs parse) (initFetch D)
          = some (lastMinFrom (recMs parse) h0 t0) := by
        rw [hb]
        exact lastMinByMs_cons _ _ _
      exact loadMore_reaches_end_aux parse D hnum
        ((D.filter (fun r => keyLe r.createdAt
            (queryBound (lastMinFrom (recMs parse) h0 t0).createdAt))).length + 1)
        (initState parse D) (by simp [initState, hinit])
        (lastMinFrom (recMs parse) h0 t0).createdAt
        (by simp [initState, hbm]) (by omega)
  · intro s h
    constructor
    · simp [loadMoreStep, h]
    · simp [didFetch, h]
  · intro s c hend hc hlen
    have hstep : loadMoreStep parse D s =
        (if (fetchEndAt D (queryBound c)).isEmpty then { s with reachedEnd := true }
         else
           { items := mergeDedup s.items (fetchEndAt D (queryBound c))
             cursor := (lastMinByMs (recMs parse)
               (fetchEndAt D (queryBound c))).map PageRec.createdAt
             reachedEnd := decide ((fetchEndAt D (queryBound c)).length < PAGE_SIZE) }) := by
      simp [loadMoreStep, hend, hc]
    rw [hstep]
    cases hbe : (fetchEndAt D (queryBound c)).isEmpty
    · simp [hlen]
    · rfl
  · intro n
    induction n with
    | zero =>
      simp only [Function.iterate_zero_apply]
      exact List.Nodup.sublist (List.Sublist.map _ (takeLast_sublist _ _)) hnodup
    | succ n ihn =>
      rw [Function.iterate_succ_apply']
      exact loadMoreStep_items_nodup parse D hnodup _ ihn

/-- Witness for `loadMore_spec` at a concrete three-record dataset with
ascending numeric timestamps and distinct ids (the `Date.parse` oracle is
never consulted on numeric keys; `fun _ => none` is used). -/
theorem loadMore_spec_witness :
    (([⟨"x1", .num 1⟩, ⟨"x2", .num 2⟩, ⟨"x3", .num 3⟩] : List PageRec).map
        PageRec.id).Nodup
      ∧ (∀ r ∈ ([⟨"x1", .num 1⟩, ⟨"x2", .num 2⟩, ⟨"x3", .num 3⟩] : List PageRec),
          isNumKey r.createdAt = true)
      ∧ (((∀ r ∈ ([⟨"x1", .num 1⟩, ⟨"x2", .num 2⟩, ⟨"x3", .num 3⟩] : List PageRec),
              isNumKey r.createdAt = true) →
            ∃ n, ((loadMoreStep (fun _ => none) [⟨"x1", .num 1⟩, ⟨"x2", .num 2⟩, ⟨"x3", .num 3⟩])^[n]
              (initState (fun _ => none)
                [⟨"x1", .num 1⟩, ⟨"x2", .num 2⟩, ⟨"x3", .num 3⟩])).reachedEnd = true)
        ∧ (∀ s : PgState, s.reachedEnd = true →
            loadMoreStep (fun _ => none) [⟨"x1", .num 1⟩, ⟨"x2", .num 2⟩, ⟨"x3", .num 3⟩] s = s
              ∧ didFetch s = false)
        ∧ (∀ (s : PgState) (c : RKey), s.reachedEnd = false → s.cursor = some c →
            (fetchEndAt [⟨"x1", .num 1⟩, ⟨"x2", .num 2⟩, ⟨"x3", .num 3⟩]
              (queryBound c)).length < PAGE_SIZE →
            (loadMoreStep (fun _ => none)
              [⟨"x1", .num 1⟩, ⟨"x2", .num 2⟩, ⟨"x3", .num 3⟩] s).reachedEnd = true)
        ∧ (∀ n, (((loadMoreStep (fun _ => none) [⟨"x1", .num 1⟩, ⟨"x2", .num 2⟩, ⟨"x3", .num 3⟩])^[n]
            (initState (fun _ => none)
              [⟨"x1", .num 1⟩, ⟨"x2", .num 2⟩, ⟨"x3", .num 3⟩])).items.map
              PageRec.id).Nodup))
      ∧ (∃ n, ((loadMoreStep (fun _ => none) [⟨"x1", .num 1⟩, ⟨"x2", .num 2⟩, ⟨"x3", .num 3⟩])^[n]
          (initState (fun _ => none)
            [⟨"x1", .num 1⟩, ⟨"x2", .num 2⟩, ⟨"x3", .num 3⟩])).reachedEnd = true) :=
  ⟨by decide, by decide,
    loadMore_spec (fun _ => none) [⟨"x1", .num 1⟩, ⟨"x2", .num 2⟩, ⟨"x3", .num 3⟩] (by decide),
    (loadMore_spec (fun _ => none) [⟨"x1", .num 1⟩, ⟨"x2", .num 2⟩, ⟨"x3", .num 3⟩]
      (by decide)).1 (by decide)⟩

end PharmaWeb
